import Mathlib

/-!
# Verification of the Namecoin name-registration consensus subsystem

Shallow embedding of the name-handling code (`src/names/main.cpp`, the
companion `names.h` header and the older `names.cpp` variant) of the
namecore repository, together with proofs of the frozen claims about it.

Byte strings (`valtype` in the C++ code) are modelled as lists of naturals,
heights as naturals, coin amounts as integers.  Chain parameters
(`NameExpirationDepth`, `MinNameCoinAmount`, the historic-bug table) and the
`Hash160` function live outside the given sources, so they are passed in as
explicit parameters; the definitions below never fix them.
-/

namespace Namecore

/-- Byte strings (`valtype` in the C++ sources). -/
abbrev valtype := List Nat

/-- Source `MEMPOOL_HEIGHT` sentinel from `txmempool.h`: `0x7FFFFFFF`. -/
def MEMPOOL_HEIGHT : Nat := 0x7FFFFFFF

/-- Source `MIN_FIRSTUPDATE_DEPTH` from `names.h`. -/
def MIN_FIRSTUPDATE_DEPTH : Nat := 12

/-- Source `MAX_NAME_LENGTH` from `names.h`. -/
def MAX_NAME_LENGTH : Nat := 255

/-- Source `MAX_VALUE_LENGTH` from `names.h`. -/
def MAX_VALUE_LENGTH : Nat := 1023

/-- Source `COutPoint`: a transaction hash together with an output index. -/
structure COutPoint where
  hash : Nat
  n : Nat
deriving DecidableEq, Repr, Inhabited

/-- Source `CNameData` from `names.h`: the record stored for a name in the
name database. -/
structure CNameData where
  value : valtype
  nHeight : Nat
  prevout : COutPoint
  addr : valtype
deriving DecidableEq, Repr, Inhabited

/-- The parsed name operation carried by a name script
(`CNameScript` in `script/names.h`): `OP_NAME_NEW` carries the 20-byte
commitment hash, `OP_NAME_FIRSTUPDATE` carries name, rand and value,
`OP_NAME_UPDATE` carries name and value. -/
inductive NameOp where
  | opNew (hash : valtype)
  | opFirstupdate (name : valtype) (rand : valtype) (value : valtype)
  | opUpdate (name : valtype) (value : valtype)
deriving DecidableEq, Repr

/-- A parsed script: `nameOp = none` models a script that is not a name
operation (`isNameOp () = false`); `addr` is the owner-script part. -/
structure CNameScript where
  nameOp : Option NameOp
  addr : valtype
deriving DecidableEq, Repr, Inhabited

/-- Source `CNameScript::isNameOp`. -/
def CNameScript.isNameOp (s : CNameScript) : Bool := s.nameOp.isSome

/-- Source `CNameScript::isAnyUpdate`: the op is `OP_NAME_FIRSTUPDATE` or
`OP_NAME_UPDATE`. -/
def NameOp.isAnyUpdate : NameOp → Bool
  | .opNew _ => false
  | .opFirstupdate _ _ _ => true
  | .opUpdate _ _ => true

/-- Source `getOpName` for update-kind operations (`getOpName` in the C++
script parser; only meaningful on update kinds). -/
def NameOp.getOpName : NameOp → valtype
  | .opNew _ => []
  | .opFirstupdate name _ _ => name
  | .opUpdate name _ => name

/-- Source `getOpValue` for update-kind operations. -/
def NameOp.getOpValue : NameOp → valtype
  | .opNew _ => []
  | .opFirstupdate _ _ value => value
  | .opUpdate _ value => value

/-- Historic-bug classification from `chainparams.h`
(`BUG_FULLY_APPLY`, `BUG_FULLY_IGNORE`, and further variants abbreviated
in the spec; only the first two are distinguished by the name code). -/
inductive BugType where
  | fullyApply
  | fullyIgnore
  | inUtxo
deriving DecidableEq, Repr

/-- The chain parameters consumed by the name code.  `historicBug txHash h`
returns the bug type when `(txHash, h)` is in the curated allowlist
(`IsHistoricBug`), and `none` otherwise. -/
structure CChainParams where
  nameExpirationDepth : Nat → Nat
  minNameCoinAmount : Nat → Int
  historicBug : Nat → Nat → Option BugType

/-- Source `IsHistoricBug` as a boolean test. -/
def CChainParams.isHistoricBug (p : CChainParams) (txHash h : Nat) : Bool :=
  (p.historicBug txHash h).isSome

/-- Static `isExpired (nPrevHeight, nHeight)` from `names/main.cpp`
(lines 24-32): a height of `MEMPOOL_HEIGHT` is never expired; otherwise the
name is expired iff `nPrevHeight + NameExpirationDepth (nHeight) <= nHeight`.
The C++ function asserts `nHeight != MEMPOOL_HEIGHT`; the assertion does not
influence the returned value. -/
def isExpired (params : CChainParams) (nPrevHeight nHeight : Nat) : Bool :=
  if nPrevHeight = MEMPOOL_HEIGHT then false
  else decide (nPrevHeight + params.nameExpirationDepth nHeight ≤ nHeight)

/-- Source `CNameData::isExpired (unsigned h)`. -/
def CNameData.isExpired (d : CNameData) (params : CChainParams) (h : Nat) :
    Bool :=
  Namecore.isExpired params d.nHeight h

/-- Source `CNameData::fromScript`: fill a record from a name-update script at a
given height and outpoint. -/
def CNameData.fromScript (h : Nat) (out : COutPoint) (script : CNameScript) :
    CNameData :=
  { value := (script.nameOp.map NameOp.getOpValue).getD []
    nHeight := h
    prevout := out
    addr := script.addr }

/-! ## CNameCache

`CNameCache` from `names.h`: new/updated entries, deleted names, and the
expire-index delta.  The C++ `std::map`/`std::set` containers are modelled
as association lists with no duplicate keys enforced by
filter-before-insert, which realizes the same lookup semantics. -/

structure CNameCache where
  entries : List (valtype × CNameData)
  deleted : List valtype
  expireIndex : List ((Nat × valtype) × Bool)
deriving DecidableEq, Repr

/-- The empty cache (default constructor). -/
def CNameCache.empty : CNameCache := ⟨[], [], []⟩

/-- Source `CNameCache::get`: look only in `entries`, ignoring `deleted`. -/
def CNameCache.get (c : CNameCache) (name : valtype) : Option CNameData :=
  (c.entries.find? (fun p => p.1 = name)).map (·.2)

/-- Source `CNameCache::isDeleted`. -/
def CNameCache.isDeleted (c : CNameCache) (name : valtype) : Bool :=
  c.deleted.contains name

/-- Source `CNameCache::set` (names.cpp lines 119-131): erase any `deleted` mark
for the name, then insert-or-assign the entry. -/
def CNameCache.set (c : CNameCache) (name : valtype) (data : CNameData) :
    CNameCache :=
  { c with
    deleted := c.deleted.filter (fun n => n ≠ name)
    entries := (name, data) :: c.entries.filter (fun p => p.1 ≠ name) }

/-- Source `CNameCache::remove` (names.cpp lines 146-154): erase any entry for the
name, then insert the `deleted` mark. -/
def CNameCache.remove (c : CNameCache) (name : valtype) : CNameCache :=
  { c with
    entries := c.entries.filter (fun p => p.1 ≠ name)
    deleted := name :: c.deleted.filter (fun n => n ≠ name) }

/-- Source `CNameCache::addExpireIndex`: map the entry `(height, name)` to `true`. -/
def CNameCache.addExpireIndex (c : CNameCache) (name : valtype) (height : Nat) :
    CNameCache :=
  { c with expireIndex :=
      ((height, name), true)
        :: c.expireIndex.filter (fun q => q.1 ≠ (height, name)) }

/-- Source `CNameCache::removeExpireIndex`: map the entry `(height, name)` to
`false`. -/
def CNameCache.removeExpireIndex (c : CNameCache) (name : valtype)
    (height : Nat) : CNameCache :=
  { c with expireIndex :=
      ((height, name), false)
        :: c.expireIndex.filter (fun q => q.1 ≠ (height, name)) }

/-- Source `CNameCache::apply` (names.cpp lines 171-189): replay the other cache's
entries via `set`, its deletions via `remove`, and merge its expire-index
deltas by insert-or-assign. -/
def CNameCache.apply (c other : CNameCache) : CNameCache :=
  let c1 := other.entries.foldl (fun acc p => acc.set p.1 p.2) c
  let c2 := other.deleted.foldl (fun acc n => acc.remove n) c1
  let mergeOne := fun (ei : List ((Nat × valtype) × Bool)) p =>
    p :: ei.filter (fun q => q.1 ≠ p.1)
  { c2 with expireIndex := other.expireIndex.foldl mergeOne c2.expireIndex }

/-- A sequence of cache mutations, as exercised by the block-processing
code: direct `set`/`remove` calls and `apply` of a child cache. -/
inductive CacheOp where
  | setOp (name : valtype) (data : CNameData)
  | removeOp (name : valtype)
  | applyOp (other : CNameCache)

/-- Run a sequence of cache operations. -/
def CNameCache.runOps (c : CNameCache) : List CacheOp → CNameCache
  | [] => c
  | .setOp n d :: rest => (c.set n d).runOps rest
  | .removeOp n :: rest => (c.remove n).runOps rest
  | .applyOp o :: rest => (c.apply o).runOps rest

/-- No name is simultaneously present in `entries` and marked `deleted`. -/
def CNameCache.disjointDeleted (c : CNameCache) : Prop :=
  ∀ n, n ∈ c.deleted → ∀ d, (n, d) ∉ c.entries

/-! ## Transactions and the coins view -/

/-- Source `CTxOut`: a coin amount and the locking script (viewed through the
name-script parser). -/
structure CTxOut where
  nValue : Int
  scriptPubKey : CNameScript
deriving DecidableEq, Repr, Inhabited

/-- Source `CTxIn`: only the `prevout` reference matters to the name code. -/
structure CTxIn where
  prevout : COutPoint
deriving DecidableEq, Repr, Inhabited

/-- Source `CCoins`: the unspent outputs of one transaction, with the height it
was confirmed at. -/
structure CCoins where
  nHeight : Nat
  vout : List CTxOut
deriving DecidableEq, Repr, Inhabited

/-- Source `CTransaction` as seen by the name code: hash, the Namecoin
version flag (`IsNamecoin ()`), inputs and outputs. -/
structure CTransaction where
  hash : Nat
  isNamecoin : Bool
  vin : List CTxIn
  vout : List CTxOut
deriving DecidableEq, Repr, Inhabited

/-- The coins view consumed and produced by the name code.  `getCoins`
is the UTXO lookup; `nameMap` is the name database (`GetName`);
`expireSet` is the expire index as a membership predicate; and
`namesForHeight` is the index range scan (`GetNamesForHeight`). -/
structure CCoinsView where
  getCoins : Nat → Option CCoins
  nameMap : valtype → Option CNameData
  expireSet : Nat → valtype → Bool
  namesForHeight : Nat → List valtype

/-- Source `CCoinsView::GetName`. -/
def CCoinsView.getName (v : CCoinsView) (name : valtype) : Option CNameData :=
  v.nameMap name

/-- Modelled from the spec: `CCoinsViewCache::SetName` (coins.cpp is not among
the given sources).  Per spec 4.3/4.5 the cache's `set` handles the
expire-index bookkeeping: the index entry at the old data's height for this
name is removed and one at the new data's height is added, alongside the
write of the name record itself. -/
def CCoinsView.setName (v : CCoinsView) (name : valtype) (data : CNameData) :
    CCoinsView :=
  { v with
    nameMap := fun n => if n = name then some data else v.nameMap n
    expireSet := fun h n =>
      if n = name then
        if h = data.nHeight then true
        else
          match v.nameMap name with
          | some old => if h = old.nHeight then false else v.expireSet h n
          | none => v.expireSet h n
      else v.expireSet h n }

/-- Modelled from the spec: `CCoinsViewCache::DeleteName` (coins.cpp is not
among the given sources).  The cache's `remove` deletes the name record and
the expire-index entry at its height. -/
def CCoinsView.deleteName (v : CCoinsView) (name : valtype) : CCoinsView :=
  { v with
    nameMap := fun n => if n = name then none else v.nameMap n
    expireSet := fun h n =>
      if n = name then
        match v.nameMap name with
        | some old => if h = old.nHeight then false else v.expireSet h n
        | none => v.expireSet h n
      else v.expireSet h n }

/-- Invariant I2/I3 of the spec: the expire index holds exactly the entry
`(data.nHeight, name)` for each name in the database. -/
def CCoinsView.expireConsistent (v : CCoinsView) : Prop :=
  ∀ h n, v.expireSet h n =
    match v.nameMap n with
    | some d => decide (d.nHeight = h)
    | none => false

/-! ## CheckNameTransaction -/

/-- The distinguishable failure kinds of `CheckNameTransaction`
(each corresponds to one `state.Invalid (error (...))` or `error (...)`
return in `names/main.cpp`). -/
inductive NameTxError where
  | fetchInputFailed
  | multipleNameInputs
  | multipleNameOutputs
  | nonNamecoinNameInput
  | nonNamecoinNameOutput
  | noNameOutput
  | greedyName
  | newWithNameInput
  | newHashWrongSize
  | updateWithoutNameInput
  | nameTooLong
  | valueTooLong
  | updatePrevNotUpdate
  | updateNameMismatch
  | updateExpiredName
  | firstupdateNonNewPrev
  | firstupdateImmatureNew
  | firstupdateRandTooLong
  | firstupdateHashMismatch
  | firstupdateUnexpiredName
deriving DecidableEq, Repr

/-- The script of the output `n` of some fetched coins
(`coins.vout[prevout.n].scriptPubKey` in the C++ scan). -/
def prevoutScript (coins : CCoins) (n : Nat) : CNameScript :=
  (coins.vout.getD n default).scriptPubKey

/-- The input scan of `CheckNameTransaction` (names/main.cpp lines 368-388):
walk the inputs, fetching each prevout's coins; record the unique name
input, fail on a fetch error or on a second name input. -/
def scanNameInputs (view : CCoinsView) :
    List CTxIn → Option (CNameScript × CCoins) →
    Except NameTxError (Option (CNameScript × CCoins))
  | [], found => .ok found
  | txin :: rest, found =>
    match view.getCoins txin.prevout.hash with
    | none => .error .fetchInputFailed
    | some coins =>
      let op := prevoutScript coins txin.prevout.n
      if op.isNameOp then
        match found with
        | some _ => .error .multipleNameInputs
        | none => scanNameInputs view rest (some (op, coins))
      else scanNameInputs view rest found

/-- The output scan of `CheckNameTransaction` (names/main.cpp lines 390-403):
record the unique name output (its coin value and parsed op), fail on a
second one. -/
def scanNameOutputs :
    List CTxOut → Option (Int × NameOp) →
    Except NameTxError (Option (Int × NameOp))
  | [], found => .ok found
  | txout :: rest, found =>
    match txout.scriptPubKey.nameOp with
    | some op =>
      match found with
      | some _ => .error .multipleNameOutputs
      | none => scanNameOutputs rest (some (txout.nValue, op))
    | none => scanNameOutputs rest found

/-- Source `CheckNameTransaction` (names/main.cpp lines 350-525).  The
`fMempool` flag stands for `flags & SCRIPT_VERIFY_NAMES_MEMPOOL`;
`hash160` is the system's `Hash160 = RIPEMD160 ∘ SHA256`, passed in because
the hash implementation is outside the given sources.  Success is `.ok ()`,
each failure returns its distinguishable kind. -/
def CheckNameTransaction (params : CChainParams) (hash160 : valtype → valtype)
    (tx : CTransaction) (nHeight : Nat) (view : CCoinsView)
    (fMempool : Bool) : Except NameTxError Unit :=
  if params.isHistoricBug tx.hash nHeight then .ok ()
  else
    match scanNameInputs view tx.vin none with
    | .error e => .error e
    | .ok inFound =>
      match scanNameOutputs tx.vout none with
      | .error e => .error e
      | .ok outFound =>
        if !tx.isNamecoin then
          match inFound, outFound with
          | some _, _ => .error .nonNamecoinNameInput
          | none, some _ => .error .nonNamecoinNameOutput
          | none, none => .ok ()
        else
          match outFound with
          | none => .error .noNameOutput
          | some (nValueOut, opOut) =>
            if nValueOut < params.minNameCoinAmount nHeight then
              .error .greedyName
            else
              match opOut with
              | .opNew hsh =>
                if inFound.isSome then .error .newWithNameInput
                else if hsh.length ≠ 20 then .error .newHashWrongSize
                else .ok ()
              | .opUpdate name value =>
                match inFound with
                | none => .error .updateWithoutNameInput
                | some (scriptIn, coinsIn) =>
                  if name.length > MAX_NAME_LENGTH then .error .nameTooLong
                  else if value.length > MAX_VALUE_LENGTH then
                    .error .valueTooLong
                  else
                    match scriptIn.nameOp with
                    | none => .error .updatePrevNotUpdate
                    | some opIn =>
                      if !opIn.isAnyUpdate then .error .updatePrevNotUpdate
                      else if name ≠ opIn.getOpName then
                        .error .updateNameMismatch
                      else if isExpired params coinsIn.nHeight nHeight then
                        .error .updateExpiredName
                      else .ok ()
              | .opFirstupdate name rand value =>
                match inFound with
                | none => .error .updateWithoutNameInput
                | some (scriptIn, coinsIn) =>
                  if name.length > MAX_NAME_LENGTH then .error .nameTooLong
                  else if value.length > MAX_VALUE_LENGTH then
                    .error .valueTooLong
                  else
                    match scriptIn.nameOp with
                    | some (.opNew hsh) =>
                      if !fMempool
                          && decide (coinsIn.nHeight + MIN_FIRSTUPDATE_DEPTH
                                      > nHeight) then
                        .error .firstupdateImmatureNew
                      else if rand.length > 20 then
                        .error .firstupdateRandTooLong
                      else if hash160 (rand ++ name) ≠ hsh then
                        .error .firstupdateHashMismatch
                      else
                        match view.getName name with
                        | some oldName =>
                          if !oldName.isExpired params nHeight then
                            .error .firstupdateUnexpiredName
                          else .ok ()
                        | none => .ok ()
                    | _ => .error .firstupdateNonNewPrev

/-! ## ApplyNameTransaction and undo -/

/-- Source `CNameTxUndo` from `names.h`: either the name was newly created
(`isNew`, delete it on undo) or it carried `oldData` before (restore it). -/
structure CNameTxUndo where
  name : valtype
  isNew : Bool
  oldData : CNameData
deriving DecidableEq, Repr, Inhabited

/-- Source `CNameTxUndo::fromOldState` (names/main.cpp lines 83-88): record
whether the name was absent, and its prior data when present. -/
def CNameTxUndo.fromOldState (nm : valtype) (view : CCoinsView) :
    CNameTxUndo :=
  { name := nm
    isNew := (view.getName nm).isNone
    oldData := (view.getName nm).getD default }

/-- Source `CNameTxUndo::apply` (names/main.cpp lines 90-97): if the name was
absent, delete it; else set it back to the prior data. -/
def CNameTxUndo.apply (u : CNameTxUndo) (view : CCoinsView) : CCoinsView :=
  if u.isNew then view.deleteName u.name else view.setName u.name u.oldData

/-- The output loop of `ApplyNameTransaction` (names/main.cpp lines 568-586):
for each name-update output, push an undo record capturing the pre-state and
write the new data.  Returns the updated view and the undo records appended
for this transaction, in output order. -/
def applyNameOutputs (txHash nHeight : Nat) :
    List CTxOut → Nat → CCoinsView → CCoinsView × List CNameTxUndo
  | [], _, view => (view, [])
  | txout :: rest, i, view =>
    match txout.scriptPubKey.nameOp with
    | some op =>
      if op.isAnyUpdate then
        let u := CNameTxUndo.fromOldState op.getOpName view
        let data := CNameData.fromScript nHeight ⟨txHash, i⟩ txout.scriptPubKey
        let res := applyNameOutputs txHash nHeight rest (i + 1)
          (view.setName op.getOpName data)
        (res.1, u :: res.2)
      else applyNameOutputs txHash nHeight rest (i + 1) view
    | none => applyNameOutputs txHash nHeight rest (i + 1) view

/-- Source `ApplyNameTransaction` (names/main.cpp lines 527-587).  A historic
bug with a type other than `FULLY_APPLY` skips the name-database update
entirely (the `FULLY_IGNORE` branch additionally marks the buggy outputs as
spent in the UTXO set, which is outside the name-database state this
function threads).  A non-Namecoin tx is a no-op.  Otherwise every
name-update output is applied, recording undo information. -/
def ApplyNameTransaction (params : CChainParams) (tx : CTransaction)
    (nHeight : Nat) (view : CCoinsView) : CCoinsView × List CNameTxUndo :=
  let core :=
    if !tx.isNamecoin then (view, [])
    else applyNameOutputs tx.hash nHeight tx.vout 0 view
  match params.historicBug tx.hash nHeight with
  | some bt => if bt = .fullyApply then core else (view, [])
  | none => core

/-- Replay a list of undo records in reverse order (the walk over
`vnameundo` from the last record to the first, as the disconnect code
does). -/
def undoNameList (undos : List CNameTxUndo) (view : CCoinsView) : CCoinsView :=
  undos.foldr (fun u v => u.apply v) view

/-! ## ExpireNames: candidate window -/

/-- Unsigned 32-bit subtraction, as C++ `unsigned` arithmetic computes
`nHeight - expDepthOld`: wraps modulo `2^32`. -/
def usub32 (a b : Nat) : Nat := (a % 2 ^ 32 + (2 ^ 32 - b % 2 ^ 32)) % 2 ^ 32

/-- The window computation and candidate collection of `ExpireNames`
(names/main.cpp lines 589-628): at the genesis height nothing expires; if
the current expiration depth exceeds the height nothing can expire;
otherwise the inclusive window `[nHeight - expDepthOld, nHeight -
expDepthNow]` is scanned and the per-height index sets are unioned.  The
result is `none` exactly when the code's assertion
`expireFrom <= expireTo + 1` fails. -/
def ExpireNamesCandidates (params : CChainParams) (nHeight : Nat)
    (view : CCoinsView) : Option (List valtype) :=
  if nHeight = 0 then some []
  else
    let expDepthOld := params.nameExpirationDepth (nHeight - 1)
    let expDepthNow := params.nameExpirationDepth nHeight
    if expDepthNow > nHeight then some []
    else
      let expireFrom := usub32 nHeight expDepthOld
      let expireTo := nHeight - expDepthNow
      if expireFrom ≤ expireTo + 1 then
        some ((List.range' expireFrom (expireTo + 1 - expireFrom)).foldl
          (fun acc y => acc.union (view.namesForHeight y)) [])
      else none

/-! ## CNameMemPool::check -/

/-- Source `CTxMemPoolEntry` as the name code sees it: the cached name
operation of the transaction (`nameOp` in txmempool.h), if any. -/
structure CTxMemPoolEntry where
  nameOp : Option NameOp
deriving DecidableEq, Repr

/-- Source `CTxMemPoolEntry::isNameNew`. -/
def CTxMemPoolEntry.isNameNew (e : CTxMemPoolEntry) : Bool :=
  match e.nameOp with
  | some (.opNew _) => true
  | _ => false

/-- Source `CTxMemPoolEntry::isNameRegistration`: a `NAME_FIRSTUPDATE`. -/
def CTxMemPoolEntry.isNameRegistration (e : CTxMemPoolEntry) : Bool :=
  match e.nameOp with
  | some (.opFirstupdate _ _ _) => true
  | _ => false

/-- Source `CTxMemPoolEntry::isNameUpdate`: a `NAME_UPDATE`. -/
def CTxMemPoolEntry.isNameUpdate (e : CTxMemPoolEntry) : Bool :=
  match e.nameOp with
  | some (.opUpdate _ _) => true
  | _ => false

/-- Source `CTxMemPoolEntry::getName`. -/
def CTxMemPoolEntry.getName (e : CTxMemPoolEntry) : valtype :=
  (e.nameOp.map NameOp.getOpName).getD []

/-- Source `CTxMemPoolEntry::getNameNewHash`. -/
def CTxMemPoolEntry.getNameNewHash (e : CTxMemPoolEntry) : valtype :=
  match e.nameOp with
  | some (.opNew h) => h
  | _ => []

/-- Lookup in one of the mempool's name maps (a `std::map<valtype,
uint256>` modelled as an association list). -/
def poolLookup (m : List (valtype × Nat)) (k : valtype) : Option Nat :=
  (m.find? (fun p => p.1 = k)).map (·.2)

/-- Source `CNameMemPool` state: the three name maps (new-hash, pending
registration and pending update, each mapping to the owning txid). -/
structure CNameMemPool where
  mapNameNews : List (valtype × Nat)
  mapNameRegs : List (valtype × Nat)
  mapNameUpdates : List (valtype × Nat)
deriving DecidableEq, Repr

/-- The per-entry loop of `CNameMemPool::check` (names/main.cpp lines
236-287), threading the `nameRegs`/`nameUpdates` duplicate-detection sets.
Returns the final sets when every assertion holds, `none` when one fails. -/
def checkEntriesLoop (np : CNameMemPool) (params : CChainParams)
    (coins : CCoinsView) (nHeight : Nat) :
    List (Nat × CTxMemPoolEntry) → List valtype → List valtype →
    Option (List valtype × List valtype)
  | [], nameRegs, nameUpdates => some (nameRegs, nameUpdates)
  | (txid, e) :: rest, nameRegs, nameUpdates =>
    match e.nameOp with
    | some (.opNew _) =>
      if poolLookup np.mapNameNews e.getNameNewHash = some txid then
        checkEntriesLoop np params coins nHeight rest nameRegs nameUpdates
      else none
    | some (.opFirstupdate _ _ _) =>
      let name := e.getName
      if poolLookup np.mapNameRegs name = some txid
          && !nameRegs.contains name
          && (match coins.getName name with
              | some data => data.isExpired params (nHeight + 1)
              | none => true) then
        checkEntriesLoop np params coins nHeight rest (name :: nameRegs)
          nameUpdates
      else none
    | some (.opUpdate _ _) =>
      let name := e.getName
      if poolLookup np.mapNameUpdates name = some txid
          && !nameUpdates.contains name
          && (match coins.getName name with
              | some data => !data.isExpired params (nHeight + 1)
              | none => false) then
        checkEntriesLoop np params coins nHeight rest nameRegs
          (name :: nameUpdates)
      else none
    | none =>
      checkEntriesLoop np params coins nHeight rest nameRegs nameUpdates

/-- Source `CNameMemPool::check` (names/main.cpp lines 222-291) as a boolean:
`true` iff every assertion in the scan holds, including the final size
comparisons of the duplicate-detection sets against the name maps.
The tip height `nHeight` (derived in the code from the view's best block via
the block index) is passed directly. -/
def CNameMemPool.check (np : CNameMemPool)
    (mapTx : List (Nat × CTxMemPoolEntry)) (params : CChainParams)
    (coins : CCoinsView) (nHeight : Nat) : Bool :=
  match checkEntriesLoop np params coins nHeight mapTx [] [] with
  | some (nameRegs, nameUpdates) =>
    nameRegs.length = np.mapNameRegs.length
      && nameUpdates.length = np.mapNameUpdates.length
  | none => false

/-! ## Helper lemmas -/

/-- An example chain-parameter record used by concrete witnesses. -/
def sampleParams : CChainParams :=
  { nameExpirationDepth := fun _ => 30
    minNameCoinAmount := fun _ => 100
    historicBug := fun _ _ => none }

/-- An example `Hash160` stand-in used by concrete witnesses. -/
def sampleHash160 : valtype → valtype := fun l => l.take 20

/-- An empty coins view used by concrete witnesses. -/
def emptyView : CCoinsView :=
  { getCoins := fun _ => none
    nameMap := fun _ => none
    expireSet := fun _ _ => false
    namesForHeight := fun _ => [] }

theorem CNameCache.set_disjoint (c : CNameCache) (name : valtype)
    (data : CNameData) (hc : c.disjointDeleted) :
    (c.set name data).disjointDeleted := by
  intro n hn d hd
  simp only [CNameCache.set, List.mem_filter, decide_eq_true_eq,
    List.mem_cons, Prod.mk.injEq] at hn hd
  rcases hd with ⟨rfl, _⟩ | ⟨hd, _⟩
  · exact hn.2 rfl
  · exact hc n hn.1 d hd

theorem CNameCache.remove_disjoint (c : CNameCache) (name : valtype)
    (hc : c.disjointDeleted) : (c.remove name).disjointDeleted := by
  intro n hn d hd
  simp only [CNameCache.remove, List.mem_filter, decide_eq_true_eq,
    List.mem_cons] at hn hd
  rcases hn with rfl | ⟨hn, _⟩
  · exact hd.2 rfl
  · exact hc n hn d hd.1

theorem CNameCache.foldl_set_disjoint (l : List (valtype × CNameData)) :
    ∀ c : CNameCache, c.disjointDeleted →
      (l.foldl (fun acc p => acc.set p.1 p.2) c).disjointDeleted := by
  induction l with
  | nil => exact fun c hc => hc
  | cons p rest ih =>
    exact fun c hc => ih _ (CNameCache.set_disjoint c p.1 p.2 hc)

theorem CNameCache.foldl_remove_disjoint (l : List valtype) :
    ∀ c : CNameCache, c.disjointDeleted →
      (l.foldl (fun acc n => acc.remove n) c).disjointDeleted := by
  induction l with
  | nil => exact fun c hc => hc
  | cons n rest ih =>
    exact fun c hc => ih _ (CNameCache.remove_disjoint c n hc)

theorem CNameCache.apply_disjoint (c other : CNameCache)
    (hc : c.disjointDeleted) : (c.apply other).disjointDeleted := by
  unfold CNameCache.apply
  intro n hn d hd
  exact CNameCache.foldl_remove_disjoint other.deleted _
    (CNameCache.foldl_set_disjoint other.entries c hc) n hn d hd

theorem CNameCache.runOps_disjoint (ops : List CacheOp) :
    ∀ c : CNameCache, c.disjointDeleted → (c.runOps ops).disjointDeleted := by
  induction ops with
  | nil => exact fun c hc => hc
  | cons op rest ih =>
    intro c hc
    cases op with
    | setOp n d => exact ih _ (CNameCache.set_disjoint c n d hc)
    | removeOp n => exact ih _ (CNameCache.remove_disjoint c n hc)
    | applyOp o => exact ih _ (CNameCache.apply_disjoint c o hc)

/-! ## Claims -/

/-- C10: a name record whose stored height is the `MEMPOOL_HEIGHT` sentinel
(an as-yet-unconfirmed record) is never considered expired: for every check
height `h`, `isExpired MEMPOOL_HEIGHT h` returns `false`, so
`CNameData::isExpired` on such a record always returns `false`. -/
theorem mempool_sentinel_never_expired (params : CChainParams) (h : Nat)
    (d : CNameData) (hd : d.nHeight = MEMPOOL_HEIGHT) :
    isExpired params MEMPOOL_HEIGHT h = false ∧
      d.isExpired params h = false := by
  refine ⟨by simp [isExpired], ?_⟩
  simp [CNameData.isExpired, hd, isExpired]

/-- Witness for C10: evaluated at a concrete record held at the sentinel
height. -/
theorem mempool_sentinel_never_expired_witness :
    (⟨[], MEMPOOL_HEIGHT, ⟨0, 0⟩, []⟩ : CNameData).nHeight = MEMPOOL_HEIGHT ∧
      (isExpired sampleParams MEMPOOL_HEIGHT 500 = false ∧
        (⟨[], MEMPOOL_HEIGHT, ⟨0, 0⟩, []⟩ : CNameData).isExpired sampleParams
          500 = false) :=
  ⟨rfl, mempool_sentinel_never_expired sampleParams 500 _ rfl⟩

/-- C9: `CNameCache` keeps its `entries` map and its `deleted` set disjoint:
starting from an empty cache, after any sequence of `set`, `remove` and
`apply` operations no name is simultaneously present in `entries` and marked
deleted; moreover `set` erases any deleted mark for the name and `remove`
erases any entry for it. -/
theorem cache_entries_deleted_disjoint (ops : List CacheOp) :
    (CNameCache.empty.runOps ops).disjointDeleted ∧
      (∀ (c : CNameCache) (n : valtype) (d : CNameData),
        (c.set n d).isDeleted n = false) ∧
      (∀ (c : CNameCache) (n : valtype), (c.remove n).get n = none) := by
  refine ⟨CNameCache.runOps_disjoint ops CNameCache.empty ?_, ?_, ?_⟩
  · intro n hn
    simp [CNameCache.empty] at hn
  · intro c n d
    simp [CNameCache.set, CNameCache.isDeleted]
  · intro c n
    simp [CNameCache.remove, CNameCache.get]

/-- C5: for a transaction on the curated historic-bug allowlist,
`CheckNameTransaction` returns success unconditionally — for every view,
flag value and hash function, before any name-input/output scanning — and
`ApplyNameTransaction` also consults the allowlist: for a bug type other
than `FULLY_APPLY` it leaves the name database untouched and records no
undo. -/
theorem historic_bug_bypass (params : CChainParams)
    (hash160 : valtype → valtype) (tx : CTransaction) (nHeight : Nat)
    (view : CCoinsView) (fMempool : Bool) (bt : BugType)
    (hbug : params.historicBug tx.hash nHeight = some bt) :
    CheckNameTransaction params hash160 tx nHeight view fMempool = .ok () ∧
      (bt ≠ .fullyApply →
        ApplyNameTransaction params tx nHeight view = (view, [])) := by
  constructor
  · simp [CheckNameTransaction, CChainParams.isHistoricBug, hbug]
  · intro hne
    simp [ApplyNameTransaction, hbug, hne]

/-- Witness for C5: a concrete allowlisted transaction (with two name
outputs, which would otherwise be rejected) passes the check, and applying
it changes nothing. -/
theorem historic_bug_bypass_witness :
    ({ sampleParams with
        historicBug := fun t h => if t = 77 ∧ h = 5 then some .fullyIgnore
          else none } : CChainParams).historicBug 77 5 = some .fullyIgnore ∧
      (CheckNameTransaction
          { sampleParams with
            historicBug := fun t h => if t = 77 ∧ h = 5 then some .fullyIgnore
              else none }
          sampleHash160
          ⟨77, true, [], [⟨1, ⟨some (.opNew [1]), []⟩⟩,
            ⟨1, ⟨some (.opNew [2]), []⟩⟩]⟩
          5 emptyView false = .ok () ∧
        (BugType.fullyIgnore ≠ .fullyApply →
          ApplyNameTransaction
            { sampleParams with
              historicBug := fun t h => if t = 77 ∧ h = 5 then
                some .fullyIgnore else none }
            ⟨77, true, [], [⟨1, ⟨some (.opNew [1]), []⟩⟩,
              ⟨1, ⟨some (.opNew [2]), []⟩⟩]⟩
            5 emptyView = (emptyView, []))) :=
  ⟨rfl, historic_bug_bypass _ sampleHash160 _ 5 emptyView false .fullyIgnore
    rfl⟩

/-- A transaction input that `CheckNameTransaction`'s scan classifies as a
name input: its prevout's coins are available and the referenced output
script parses as a name operation. -/
def isNameInput (view : CCoinsView) (txin : CTxIn) : Bool :=
  match view.getCoins txin.prevout.hash with
  | some coins => (prevoutScript coins txin.prevout.n).isNameOp
  | none => false

theorem scanNameInputs_some_found (view : CCoinsView) :
    ∀ (l : List CTxIn) (x : CNameScript × CCoins),
      (∀ txin ∈ l, (view.getCoins txin.prevout.hash).isSome = true) →
      (∃ txin ∈ l, isNameInput view txin = true) →
      scanNameInputs view l (some x) = .error .multipleNameInputs := by
  intro l
  induction l with
  | nil => intro x _ hex; simp at hex
  | cons txin rest ih =>
    intro x hfetch hex
    have hf : (view.getCoins txin.prevout.hash).isSome = true :=
      hfetch txin (List.mem_cons_self txin rest)
    obtain ⟨coins, hc⟩ := Option.isSome_iff_exists.mp hf
    by_cases hop : (prevoutScript coins txin.prevout.n).isNameOp = true
    · simp [scanNameInputs, hc, hop]
    · have hni : isNameInput view txin = false := by
        simp [isNameInput, hc, hop]
      rw [scanNameInputs, hc]
      simp only [hop, Bool.false_eq_true, if_false]
      apply ih x (fun t ht => hfetch t (List.mem_cons_of_mem txin ht))
      rcases hex with ⟨t, ht, hnt⟩
      rcases List.mem_cons.mp ht with rfl | ht
      · rw [hni] at hnt; exact absurd hnt (by simp)
      · exact ⟨t, ht, hnt⟩

theorem scanNameInputs_two (view : CCoinsView) :
    ∀ l : List CTxIn,
      (∀ txin ∈ l, (view.getCoins txin.prevout.hash).isSome = true) →
      2 ≤ l.countP (fun t => isNameInput view t) →
      scanNameInputs view l none = .error .multipleNameInputs := by
  intro l
  induction l with
  | nil => intro _ h2; simp [List.countP_nil] at h2
  | cons txin rest ih =>
    intro hfetch h2
    have hf : (view.getCoins txin.prevout.hash).isSome = true :=
      hfetch txin (List.mem_cons_self txin rest)
    obtain ⟨coins, hc⟩ := Option.isSome_iff_exists.mp hf
    rw [List.countP_cons] at h2
    by_cases hop : (prevoutScript coins txin.prevout.n).isNameOp = true
    · rw [scanNameInputs, hc]
      simp only [hop, if_true]
      apply scanNameInputs_some_found view rest _
        (fun t ht => hfetch t (List.mem_cons_of_mem txin ht))
      have hni : isNameInput view txin = true := by
        simp [isNameInput, hc, hop]
      rw [hni] at h2
      simp only [if_true] at h2
      have h1 : 0 < rest.countP (fun t => isNameInput view t) := by omega
      obtain ⟨t, ht, hnt⟩ := List.countP_pos_iff.mp h1
      exact ⟨t, ht, hnt⟩
    · have hni : isNameInput view txin = false := by
        simp [isNameInput, hc, hop]
      rw [scanNameInputs, hc]
      simp only [hop, Bool.false_eq_true, if_false]
      apply ih (fun t ht => hfetch t (List.mem_cons_of_mem txin ht))
      rw [hni] at h2
      simpa using h2

theorem scanNameOutputs_some_found :
    ∀ (l : List CTxOut) (x : Int × NameOp),
      (∃ o ∈ l, o.scriptPubKey.isNameOp = true) →
      scanNameOutputs l (some x) = .error .multipleNameOutputs := by
  intro l
  induction l with
  | nil => intro x hex; simp at hex
  | cons o rest ih =>
    intro x hex
    match hop : o.scriptPubKey.nameOp with
    | some op => simp [scanNameOutputs, hop]
    | none =>
      rw [scanNameOutputs, hop]
      apply ih
      rcases hex with ⟨t, ht, hnt⟩
      rcases List.mem_cons.mp ht with rfl | ht
      · simp [CNameScript.isNameOp, hop] at hnt
      · exact ⟨t, ht, hnt⟩

theorem scanNameOutputs_two :
    ∀ l : List CTxOut,
      2 ≤ l.countP (fun o => o.scriptPubKey.isNameOp) →
      scanNameOutputs l none = .error .multipleNameOutputs := by
  intro l
  induction l with
  | nil => intro h2; simp [List.countP_nil] at h2
  | cons o rest ih =>
    intro h2
    rw [List.countP_cons] at h2
    match hop : o.scriptPubKey.nameOp with
    | some op =>
      rw [scanNameOutputs, hop]
      apply scanNameOutputs_some_found
      have hno : o.scriptPubKey.isNameOp = true := by
        simp [CNameScript.isNameOp, hop]
      rw [hno] at h2
      simp only [if_true] at h2
      have h1 : 0 < rest.countP (fun o => o.scriptPubKey.isNameOp) := by omega
      obtain ⟨t, ht, hnt⟩ := List.countP_pos_iff.mp h1
      exact ⟨t, ht, hnt⟩
    | none =>
      rw [scanNameOutputs, hop]
      apply ih
      have : o.scriptPubKey.isNameOp = false := by
        simp [CNameScript.isNameOp, hop]
      rw [this] at h2
      simpa using h2

/-- C6: outside the historic-bug allowlist, a transaction whose inputs
include two (or more) name-operation prevouts is rejected with the
multiple-name-inputs failure, and one with two (or more) name-operation
outputs is rejected with the multiple-name-outputs failure (the input scan
runs first, so the output half assumes the input scan succeeded). -/
theorem check_rejects_multiple_name_io (params : CChainParams)
    (hash160 : valtype → valtype) (tx : CTransaction) (nHeight : Nat)
    (view : CCoinsView) (fMempool : Bool)
    (hbug : params.isHistoricBug tx.hash nHeight = false) :
    ((∀ txin ∈ tx.vin, (view.getCoins txin.prevout.hash).isSome = true) →
      2 ≤ tx.vin.countP (fun t => isNameInput view t) →
      CheckNameTransaction params hash160 tx nHeight view fMempool
        = .error .multipleNameInputs) ∧
      (∀ found, scanNameInputs view tx.vin none = .ok found →
        2 ≤ tx.vout.countP (fun o => o.scriptPubKey.isNameOp) →
        CheckNameTransaction params hash160 tx nHeight view fMempool
          = .error .multipleNameOutputs) := by
  constructor
  · intro hfetch h2
    rw [CheckNameTransaction]
    simp only [hbug, Bool.false_eq_true, if_false]
    rw [scanNameInputs_two view tx.vin hfetch h2]
  · intro found hin h2
    rw [CheckNameTransaction]
    simp only [hbug, Bool.false_eq_true, if_false]
    rw [hin, scanNameOutputs_two tx.vout h2]

/-- Witness for C6: a transaction with two name inputs is rejected as
`multipleNameInputs`, and one with two name outputs as
`multipleNameOutputs`. -/
theorem check_rejects_multiple_name_io_witness :
    CheckNameTransaction sampleParams sampleHash160
        ⟨9, true, [⟨⟨3, 0⟩⟩, ⟨⟨3, 0⟩⟩], []⟩ 50
        { emptyView with getCoins := fun t =>
            if t = 3 then some ⟨10, [⟨25, ⟨some (.opUpdate [1] [2]), []⟩⟩]⟩
            else none }
        false = .error .multipleNameInputs ∧
      CheckNameTransaction sampleParams sampleHash160
        ⟨9, true, [],
          [⟨25, ⟨some (.opNew [1]), []⟩⟩, ⟨25, ⟨some (.opNew [2]), []⟩⟩]⟩
        50 emptyView false = .error .multipleNameOutputs := by
  constructor
  · exact (check_rejects_multiple_name_io sampleParams sampleHash160 _ 50 _
      false (by decide)).1 (by decide) (by decide)
  · exact (check_rejects_multiple_name_io sampleParams sampleHash160 _ 50
      emptyView false (by decide)).2 none rfl (by decide)

theorem scanNameInputs_error_shape (view : CCoinsView) :
    ∀ (l : List CTxIn) (acc : Option (CNameScript × CCoins)) (e : NameTxError),
      scanNameInputs view l acc = .error e →
      e = .fetchInputFailed ∨ e = .multipleNameInputs := by
  intro l
  induction l with
  | nil => intro acc e he; simp [scanNameInputs] at he
  | cons txin rest ih =>
    intro acc e he
    rw [scanNameInputs] at he
    cases hc : view.getCoins txin.prevout.hash with
    | none =>
      simp only [hc] at he
      injection he with h1
      exact Or.inl h1.symm
    | some coins =>
      simp only [hc] at he
      by_cases hop : (prevoutScript coins txin.prevout.n).isNameOp = true
      · simp only [hop, if_true] at he
        cases acc with
        | some x =>
          injection he with h1
          exact Or.inr h1.symm
        | none => exact ih _ e he
      · simp only [hop, Bool.false_eq_true, if_false] at he
        exact ih _ e he

/-- C4: at every target height (block heights and mempool admission alike),
a Namecoin transaction whose unique name output carries a value below the
chain-parameter floor `MinNameCoinAmount (nHeight)` is rejected as a greedy
name, and a value at or above the floor is never rejected on that ground. -/
theorem greedy_name_floor (params : CChainParams)
    (hash160 : valtype → valtype) (tx : CTransaction) (nHeight : Nat)
    (view : CCoinsView) (fMempool : Bool)
    (hbug : params.isHistoricBug tx.hash nHeight = false)
    (nv : Int) (opOut : NameOp)
    (hout : scanNameOutputs tx.vout none = .ok (some (nv, opOut))) :
    (tx.isNamecoin = true →
      ∀ found, scanNameInputs view tx.vin none = .ok found →
      nv < params.minNameCoinAmount nHeight →
      CheckNameTransaction params hash160 tx nHeight view fMempool
        = .error .greedyName) ∧
      (params.minNameCoinAmount nHeight ≤ nv →
        CheckNameTransaction params hash160 tx nHeight view fMempool
          ≠ .error .greedyName) := by
  constructor
  · intro hnc found hin hlt
    rw [CheckNameTransaction]
    simp only [hbug, Bool.false_eq_true, if_false]
    rw [hin, hout]
    simp [hnc, hlt]
  · intro hge hres
    rw [CheckNameTransaction] at hres
    simp only [hbug, Bool.false_eq_true, if_false] at hres
    cases hin2 : scanNameInputs view tx.vin none with
    | error e =>
      rw [hin2] at hres
      rcases scanNameInputs_error_shape view tx.vin none e hin2 with rfl | rfl
        <;> simp at hres
    | ok found =>
      rw [hin2, hout] at hres
      have hnv : ¬ nv < params.minNameCoinAmount nHeight := not_lt.mpr hge
      by_cases hnc : tx.isNamecoin = true
      · simp only [hnc, Bool.not_true, Bool.false_eq_true, if_false] at hres
        simp only [hnv, if_false] at hres
        rcases opOut with hsh | ⟨n, r, vval⟩ | ⟨n, vval⟩ <;>
          (repeat' split at hres) <;> simp_all
      · simp only [Bool.not_eq_true] at hnc
        simp only [hnc, Bool.not_false, if_true] at hres
        cases found <;> simp at hres

/-- A below-floor sample transaction for the C4 witness. -/
def greedyTx : CTransaction :=
  ⟨9, true, [], [⟨(50 : Int), ⟨some (.opNew [1]), []⟩⟩]⟩

/-- An at-floor sample transaction for the C4 witness. -/
def nonGreedyTx : CTransaction :=
  ⟨9, true, [], [⟨(100 : Int), ⟨some (.opNew [1]), []⟩⟩]⟩

/-- Witness for C4: a below-floor name output is rejected as greedy, while
an at-floor one is not rejected on that ground. -/
theorem greedy_name_floor_witness :
    CheckNameTransaction sampleParams sampleHash160 greedyTx 50 emptyView
        false = .error .greedyName ∧
      CheckNameTransaction sampleParams sampleHash160 nonGreedyTx 50 emptyView
        false ≠ .error .greedyName := by
  constructor
  · exact (greedy_name_floor sampleParams sampleHash160 greedyTx 50 emptyView
      false (by decide) 50 (.opNew [1]) rfl).1 rfl none rfl (by decide)
  · exact (greedy_name_floor sampleParams sampleHash160 nonGreedyTx 50
      emptyView false (by decide) 100 (.opNew [1]) rfl).2 (by decide)

/-- C2: a NAME_FIRSTUPDATE passes `CheckNameTransaction` only if the 160-bit
hash of the revealed rand concatenated with the name equals the commitment
in the NAME_NEW input; with any other rand (so that the hashes differ) the
transaction is rejected with the commitment-mismatch error.  The system's
`Hash160 = RIPEMD160 ∘ SHA256` enters as the abstract `hash160`
parameter. -/
theorem firstupdate_commitment (params : CChainParams)
    (hash160 : valtype → valtype) (tx : CTransaction) (nHeight : Nat)
    (view : CCoinsView) (fMempool : Bool)
    (hbug : params.isHistoricBug tx.hash nHeight = false)
    (name rand value : valtype) (nv : Int)
    (hout : scanNameOutputs tx.vout none
      = .ok (some (nv, .opFirstupdate name rand value)))
    (scriptIn : CNameScript) (coinsIn : CCoins) (hsh : valtype)
    (hin : scanNameInputs view tx.vin none = .ok (some (scriptIn, coinsIn)))
    (hinop : scriptIn.nameOp = some (.opNew hsh)) :
    (CheckNameTransaction params hash160 tx nHeight view fMempool = .ok () →
      hash160 (rand ++ name) = hsh) ∧
      (tx.isNamecoin = true →
        ¬ nv < params.minNameCoinAmount nHeight →
        ¬ MAX_NAME_LENGTH < name.length →
        ¬ MAX_VALUE_LENGTH < value.length →
        (fMempool = true ∨
          coinsIn.nHeight + MIN_FIRSTUPDATE_DEPTH ≤ nHeight) →
        ¬ 20 < rand.length →
        hash160 (rand ++ name) ≠ hsh →
        CheckNameTransaction params hash160 tx nHeight view fMempool
          = .error .firstupdateHashMismatch) := by
  constructor
  · intro hok
    rw [CheckNameTransaction] at hok
    simp only [hbug, Bool.false_eq_true, if_false] at hok
    rw [hin, hout] at hok
    by_cases hnc : tx.isNamecoin = true
    · simp only [hnc, Bool.not_true, Bool.false_eq_true, if_false,
        hinop] at hok
      (repeat' split at hok) <;> simp_all
    · simp only [Bool.not_eq_true] at hnc
      simp [hnc] at hok
  · intro hnc hnv hnlen hvlen hmat hrand hne
    rw [CheckNameTransaction]
    simp only [hbug, Bool.false_eq_true, if_false]
    rw [hin, hout]
    simp only [hnc, Bool.not_true, Bool.false_eq_true, if_false, hinop]
    rcases hmat with hm | hm
    · simp [hnv, hnlen, hvlen, hm, hrand, hne]
    · have hnp : ¬ coinsIn.nHeight + MIN_FIRSTUPDATE_DEPTH > nHeight := by
        omega
      simp [hnv, hnlen, hvlen, hnp, hrand, hne]

/-- The NAME_NEW script used by the C2/C3 witnesses: its commitment hash was
computed with rand `[10]` and name `[1, 2, 3]`. -/
def newScriptW : CNameScript :=
  ⟨some (.opNew (sampleHash160 ([10] ++ [1, 2, 3]))), [9]⟩

/-- The coins carrying that NAME_NEW, confirmed at height 100. -/
def newCoinsW : CCoins := ⟨100, [⟨200, newScriptW⟩]⟩

/-- A sample coins view for the C2/C3 witnesses: transaction 50 carries the
NAME_NEW above. -/
def viewWithNew : CCoinsView :=
  { emptyView with getCoins := fun t =>
      if t = 50 then some newCoinsW else none }

/-- A sample NAME_FIRSTUPDATE spending that NAME_NEW, revealing `r` as its
rand. -/
def fuTx (r : valtype) : CTransaction :=
  { hash := 60, isNamecoin := true, vin := [⟨⟨50, 0⟩⟩],
    vout := [⟨150, ⟨some (.opFirstupdate [1, 2, 3] r [7, 7]), [8]⟩⟩] }

/-- Witness for C2: the FIRSTUPDATE revealing the committed rand `[10]`
passes, and the one revealing `[11]` is rejected with the
commitment-mismatch error. -/
theorem firstupdate_commitment_witness :
    CheckNameTransaction sampleParams sampleHash160 (fuTx [10]) 112
        viewWithNew false = .ok () ∧
      CheckNameTransaction sampleParams sampleHash160 (fuTx [11]) 112
        viewWithNew false = .error .firstupdateHashMismatch := by
  constructor
  · rfl
  · exact (firstupdate_commitment sampleParams sampleHash160 (fuTx [11]) 112
      viewWithNew false (by decide) [1, 2, 3] [11] [7, 7] 150 rfl
      newScriptW newCoinsW (sampleHash160 ([10] ++ [1, 2, 3])) rfl rfl).2
      rfl (by decide) (by decide) (by decide) (Or.inr (by decide))
      (by decide) (by decide)

/-- C3: for a NAME_FIRSTUPDATE validated for a block (not for mempool
admission), `CheckNameTransaction` rejects with the immature-NEW error
whenever the NAME_NEW input's confirmation height plus
`MIN_FIRSTUPDATE_DEPTH` (12) exceeds the target height, passes exactly at
`nHeight = newHeight + 12` (all other checks passing), and skips the
maturity check entirely on the mempool path. -/
theorem firstupdate_maturity (params : CChainParams)
    (hash160 : valtype → valtype) (tx : CTransaction) (nHeight : Nat)
    (view : CCoinsView)
    (hbug : params.isHistoricBug tx.hash nHeight = false)
    (name rand value : valtype) (nv : Int)
    (hout : scanNameOutputs tx.vout none
      = .ok (some (nv, .opFirstupdate name rand value)))
    (scriptIn : CNameScript) (coinsIn : CCoins) (hsh : valtype)
    (hin : scanNameInputs view tx.vin none = .ok (some (scriptIn, coinsIn)))
    (hinop : scriptIn.nameOp = some (.opNew hsh))
    (hnc : tx.isNamecoin = true)
    (hnv : ¬ nv < params.minNameCoinAmount nHeight)
    (hnlen : ¬ MAX_NAME_LENGTH < name.length)
    (hvlen : ¬ MAX_VALUE_LENGTH < value.length) :
    (nHeight < coinsIn.nHeight + MIN_FIRSTUPDATE_DEPTH →
      CheckNameTransaction params hash160 tx nHeight view false
        = .error .firstupdateImmatureNew) ∧
      (nHeight = coinsIn.nHeight + MIN_FIRSTUPDATE_DEPTH →
        ¬ 20 < rand.length →
        hash160 (rand ++ name) = hsh →
        (∀ old, view.getName name = some old →
          old.isExpired params nHeight = true) →
        CheckNameTransaction params hash160 tx nHeight view false
          = .ok ()) ∧
      (nHeight < coinsIn.nHeight + MIN_FIRSTUPDATE_DEPTH →
        ¬ 20 < rand.length →
        hash160 (rand ++ name) = hsh →
        (∀ old, view.getName name = some old →
          old.isExpired params nHeight = true) →
        CheckNameTransaction params hash160 tx nHeight view true
          = .ok ()) := by
  refine ⟨?_, ?_, ?_⟩
  · intro himm
    rw [CheckNameTransaction]
    simp only [hbug, Bool.false_eq_true, if_false]
    rw [hin, hout]
    simp only [hnc, Bool.not_true, Bool.false_eq_true, if_false, hinop]
    simp [hnv, hnlen, hvlen, himm]
  · intro hmat hrand hheq hcol
    rw [CheckNameTransaction]
    simp only [hbug, Bool.false_eq_true, if_false]
    rw [hin, hout]
    simp only [hnc, Bool.not_true, Bool.false_eq_true, if_false, hinop]
    have hnp : ¬ coinsIn.nHeight + MIN_FIRSTUPDATE_DEPTH > nHeight := by
      omega
    cases hgn : view.getName name with
    | none => simp [hnv, hnlen, hvlen, hnp, hrand, hheq, hgn]
    | some old => simp [hnv, hnlen, hvlen, hnp, hrand, hheq, hgn,
        hcol old hgn]
  · intro himm hrand hheq hcol
    rw [CheckNameTransaction]
    simp only [hbug, Bool.false_eq_true, if_false]
    rw [hin, hout]
    simp only [hnc, Bool.not_true, Bool.false_eq_true, if_false, hinop]
    cases hgn : view.getName name with
    | none => simp [hnv, hnlen, hvlen, hrand, hheq, hgn]
    | some old => simp [hnv, hnlen, hvlen, hrand, hheq, hgn, hcol old hgn]

/-- Witness for C3: with the NAME_NEW confirmed at height 100, the
FIRSTUPDATE is rejected as immature at height 111, accepted at height 112,
and accepted at height 111 on the mempool path. -/
theorem firstupdate_maturity_witness :
    CheckNameTransaction sampleParams sampleHash160 (fuTx [10]) 111
        viewWithNew false = .error .firstupdateImmatureNew ∧
      CheckNameTransaction sampleParams sampleHash160 (fuTx [10]) 112
        viewWithNew false = .ok () ∧
      CheckNameTransaction sampleParams sampleHash160 (fuTx [10]) 111
        viewWithNew true = .ok () := by
  refine ⟨?_, ?_, ?_⟩
  · exact (firstupdate_maturity sampleParams sampleHash160 (fuTx [10]) 111
      viewWithNew (by decide) [1, 2, 3] [10] [7, 7] 150 rfl
      newScriptW newCoinsW (sampleHash160 ([10] ++ [1, 2, 3])) rfl rfl rfl
      (by decide) (by decide) (by decide)).1 (by decide)
  · exact (firstupdate_maturity sampleParams sampleHash160 (fuTx [10]) 112
      viewWithNew (by decide) [1, 2, 3] [10] [7, 7] 150 rfl
      newScriptW newCoinsW (sampleHash160 ([10] ++ [1, 2, 3])) rfl rfl rfl
      (by decide) (by decide) (by decide)).2.1 (by decide) (by decide) rfl
      (fun old hold => by simp [viewWithNew, emptyView, CCoinsView.getName]
        at hold)
  · exact (firstupdate_maturity sampleParams sampleHash160 (fuTx [10]) 111
      viewWithNew (by decide) [1, 2, 3] [10] [7, 7] 150 rfl
      newScriptW newCoinsW (sampleHash160 ([10] ++ [1, 2, 3])) rfl rfl rfl
      (by decide) (by decide) (by decide)).2.2 (by decide) (by decide) rfl
      (fun old hold => by simp [viewWithNew, emptyView, CCoinsView.getName]
        at hold)

theorem usub32_of_le (a b : Nat) (hb : b ≤ a) (ha : a < 2 ^ 32) :
    usub32 a b = a - b := by
  rw [usub32]
  omega

theorem mem_list_union (acc l : List valtype) (nm : valtype) :
    nm ∈ acc.union l ↔ nm ∈ acc ∨ nm ∈ l :=
  List.mem_union_iff

theorem mem_foldl_union (f : Nat → List valtype) (nm : valtype) :
    ∀ (ys : List Nat) (acc : List valtype),
      nm ∈ ys.foldl (fun acc y => acc.union (f y)) acc ↔
        nm ∈ acc ∨ ∃ y ∈ ys, nm ∈ f y := by
  intro ys
  induction ys with
  | nil => simp
  | cons y rest ih =>
    intro acc
    rw [List.foldl_cons, ih]
    simp only [mem_list_union, List.mem_cons]
    constructor
    · rintro ((h | h) | ⟨z, hz, hm⟩)
      · exact Or.inl h
      · exact Or.inr ⟨y, Or.inl rfl, h⟩
      · exact Or.inr ⟨z, Or.inr hz, hm⟩
    · rintro (h | ⟨z, rfl | hz, hm⟩)
      · exact Or.inl (Or.inl h)
      · exact Or.inl (Or.inr hm)
      · exact Or.inr ⟨z, hz, hm⟩

/-- C7: for every block-connect height `h > 0` at which `ExpireNames`
proceeds (`expiration_depth h ≤ h`), the inclusive candidate window is
exactly `[h - expiration_depth (h-1), h - expiration_depth h]`, the
postcondition `expireFrom ≤ expireTo + 1` holds (the assertion never fires,
given the schedule sanity `depth (h-1) ≤ h` and `depth h ≤ depth (h-1) + 1`
satisfied by the chain parameters), and the candidate set is exactly the
union over that window of the names indexed at each height; if
`expiration_depth h > h`, nothing expires and the routine succeeds with an
empty set. -/
theorem expire_names_window (params : CChainParams) (nHeight : Nat)
    (view : CCoinsView) (hpos : 0 < nHeight) (hlt : nHeight < 2 ^ 32) :
    (params.nameExpirationDepth nHeight > nHeight →
      ExpireNamesCandidates params nHeight view = some []) ∧
      (params.nameExpirationDepth nHeight ≤ nHeight →
        params.nameExpirationDepth (nHeight - 1) ≤ nHeight →
        params.nameExpirationDepth nHeight ≤
          params.nameExpirationDepth (nHeight - 1) + 1 →
        ∃ l, ExpireNamesCandidates params nHeight view = some l ∧
          ∀ nm, nm ∈ l ↔ ∃ y,
            nHeight - params.nameExpirationDepth (nHeight - 1) ≤ y ∧
            y ≤ nHeight - params.nameExpirationDepth nHeight ∧
            nm ∈ view.namesForHeight y) := by
  have hne : ¬ nHeight = 0 := by omega
  constructor
  · intro hgt
    rw [ExpireNamesCandidates, if_neg hne, if_pos hgt]
  · intro hguard hold hstep
    have hngt : ¬ params.nameExpirationDepth nHeight > nHeight := by omega
    have hfrom : usub32 nHeight (params.nameExpirationDepth (nHeight - 1))
        = nHeight - params.nameExpirationDepth (nHeight - 1) :=
      usub32_of_le nHeight _ hold hlt
    have hassert : nHeight - params.nameExpirationDepth (nHeight - 1) ≤
        nHeight - params.nameExpirationDepth nHeight + 1 := by omega
    rw [ExpireNamesCandidates, if_neg hne, if_neg hngt]
    simp only [hfrom, hassert, if_pos]
    refine ⟨_, rfl, fun nm => ?_⟩
    rw [mem_foldl_union]
    simp only [List.not_mem_nil, false_or, List.mem_range'_1]
    constructor
    · rintro ⟨y, ⟨hy1, hy2⟩, hmem⟩
      exact ⟨y, hy1, by omega, hmem⟩
    · rintro ⟨y, hy1, hy2, hmem⟩
      exact ⟨y, ⟨hy1, by omega⟩, hmem⟩

/-- A sample view with two indexed names for the C7 witness. -/
def viewIdx : CCoinsView :=
  { emptyView with namesForHeight := fun h =>
      if h = 70 then [[4]] else if h = 71 then [[5]] else [] }

/-- Witness for C7: with a flat depth of 200 at height 101 nothing expires;
with the sample depth of 30 the window is `[71, 71]` and the candidate set
is characterized by the index contents. -/
theorem expire_names_window_witness :
    ExpireNamesCandidates
        { sampleParams with nameExpirationDepth := fun _ => 200 } 101 viewIdx
        = some [] ∧
      ∃ l, ExpireNamesCandidates sampleParams 101 viewIdx = some l ∧
        ∀ nm, nm ∈ l ↔ ∃ y,
          101 - sampleParams.nameExpirationDepth (101 - 1) ≤ y ∧
          y ≤ 101 - sampleParams.nameExpirationDepth 101 ∧
          nm ∈ viewIdx.namesForHeight y := by
  constructor
  · exact (expire_names_window
      { sampleParams with nameExpirationDepth := fun _ => 200 } 101 viewIdx
      (by decide) (by decide)).1 (by decide)
  · exact (expire_names_window sampleParams 101 viewIdx (by decide)
      (by decide)).2 (by decide) (by decide) (by decide)

theorem checkEntriesLoop_sound (np : CNameMemPool) (params : CChainParams)
    (coins : CCoinsView) (nHeight : Nat) :
    ∀ (l : List (Nat × CTxMemPoolEntry)) (regs upds : List valtype)
      (res : List valtype × List valtype),
      checkEntriesLoop np params coins nHeight l regs upds = some res →
      ∀ txid e, (txid, e) ∈ l →
        (e.isNameRegistration = true →
          ∀ data, coins.getName e.getName = some data →
            data.isExpired params (nHeight + 1) = true) ∧
        (e.isNameUpdate = true →
          ∃ data, coins.getName e.getName = some data ∧
            data.isExpired params (nHeight + 1) = false) := by
  intro l
  induction l with
  | nil =>
    intro regs upds res hloop txid e he
    simp at he
  | cons p rest ih =>
    intro regs upds res hloop txid e he
    obtain ⟨ptxid, pe⟩ := p
    rw [checkEntriesLoop] at hloop
    rcases List.mem_cons.mp he with heq | he2
    · injection heq with h1 h2
      subst h1; subst h2
      match hop : e.nameOp with
      | some (.opNew hsh) =>
        constructor
        · intro hreg
          simp [CTxMemPoolEntry.isNameRegistration, hop] at hreg
        · intro hupd
          simp [CTxMemPoolEntry.isNameUpdate, hop] at hupd
      | some (.opFirstupdate n r v) =>
        simp only [hop] at hloop
        split at hloop
        case isTrue hcond =>
          simp only [Bool.and_eq_true] at hcond
          constructor
          · intro _ data hdata
            have h3 := hcond.2
            rw [hdata] at h3
            exact h3
          · intro hupd
            simp [CTxMemPoolEntry.isNameUpdate, hop] at hupd
        case isFalse => simp at hloop
      | some (.opUpdate n v) =>
        simp only [hop] at hloop
        split at hloop
        case isTrue hcond =>
          simp only [Bool.and_eq_true] at hcond
          constructor
          · intro hreg
            simp [CTxMemPoolEntry.isNameRegistration, hop] at hreg
          · intro _
            have h3 := hcond.2
            cases hdata : coins.getName e.getName with
            | none => rw [hdata] at h3; simp at h3
            | some data =>
              rw [hdata] at h3
              simp only [Bool.not_eq_true'] at h3
              exact ⟨data, rfl, h3⟩
        case isFalse => simp at hloop
      | none =>
        constructor
        · intro hreg
          simp [CTxMemPoolEntry.isNameRegistration, hop] at hreg
        · intro hupd
          simp [CTxMemPoolEntry.isNameUpdate, hop] at hupd
    · match hop : pe.nameOp with
      | some (.opNew hsh) =>
        simp only [hop] at hloop
        split at hloop
        · exact ih _ _ res hloop txid e he2
        · simp at hloop
      | some (.opFirstupdate n r v) =>
        simp only [hop] at hloop
        split at hloop
        · exact ih _ _ res hloop txid e he2
        · simp at hloop
      | some (.opUpdate n v) =>
        simp only [hop] at hloop
        split at hloop
        · exact ih _ _ res hloop txid e he2
        · simp at hloop
      | none =>
        simp only [hop] at hloop
        exact ih _ _ res hloop txid e he2

/-- C8: if the mempool name index's full consistency check passes at tip
height `nHeight`, then every pending registration targets a name that
either does not exist in the backing view or is expired at the next-block
height `nHeight + 1`, and every pending update targets a name that exists
and is not expired at `nHeight + 1`. -/
theorem mempool_check_pending_names (np : CNameMemPool)
    (mapTx : List (Nat × CTxMemPoolEntry)) (params : CChainParams)
    (coins : CCoinsView) (nHeight : Nat)
    (hchk : np.check mapTx params coins nHeight = true) :
    ∀ txid e, (txid, e) ∈ mapTx →
      (e.isNameRegistration = true →
        ∀ data, coins.getName e.getName = some data →
          data.isExpired params (nHeight + 1) = true) ∧
      (e.isNameUpdate = true →
        ∃ data, coins.getName e.getName = some data ∧
          data.isExpired params (nHeight + 1) = false) := by
  intro txid e he
  rw [CNameMemPool.check] at hchk
  cases hloop : checkEntriesLoop np params coins nHeight mapTx [] [] with
  | none => rw [hloop] at hchk; simp at hchk
  | some res =>
    exact checkEntriesLoop_sound np params coins nHeight mapTx [] [] res
      hloop txid e he

/-- A sample mempool for the C8 witness: one pending registration of the
name `[1, 2, 3]` by transaction 7. -/
def samplePool : CNameMemPool := ⟨[], [([1, 2, 3], 7)], []⟩

/-- The entry list of that sample mempool. -/
def sampleMapTx : List (Nat × CTxMemPoolEntry) :=
  [(7, ⟨some (.opFirstupdate [1, 2, 3] [0] [1])⟩)]

/-- Witness for C8: the sample pool passes the check against the empty view
and the pending registration indeed targets a name absent from the view. -/
theorem mempool_check_pending_names_witness :
    samplePool.check sampleMapTx sampleParams emptyView 100 = true ∧
      ((⟨some (.opFirstupdate [1, 2, 3] [0] [1])⟩ :
          CTxMemPoolEntry).isNameRegistration = true →
        ∀ data, emptyView.getName
            (⟨some (.opFirstupdate [1, 2, 3] [0] [1])⟩ :
              CTxMemPoolEntry).getName = some data →
          data.isExpired sampleParams 101 = true) :=
  ⟨rfl, (mempool_check_pending_names samplePool sampleMapTx sampleParams
    emptyView 100 rfl 7 _ (by simp [sampleMapTx])).1⟩

theorem undoNameList_cons (u : CNameTxUndo) (us : List CNameTxUndo)
    (view : CCoinsView) :
    undoNameList (u :: us) view = u.apply (undoNameList us view) := rfl

theorem setName_expireConsistent (v : CCoinsView) (name : valtype)
    (d : CNameData) (hc : v.expireConsistent) :
    (v.setName name d).expireConsistent := by
  intro h n
  have hce := hc h n
  simp only [CCoinsView.setName]
  by_cases hn : n = name
  · rw [if_pos hn, if_pos hn]
    by_cases hh : h = d.nHeight
    · rw [if_pos hh]
      simp [hh]
    · rw [if_neg hh]
      have hdh : ¬ d.nHeight = h := fun a => hh a.symm
      rw [← hn]
      cases hv : v.nameMap n with
      | none =>
        rw [hv] at hce
        dsimp only at hce ⊢
        simp [hce, hdh]
      | some old =>
        rw [hv] at hce
        dsimp only at hce ⊢
        by_cases hho : h = old.nHeight
        · rw [if_pos hho]
          simp [hdh]
        · rw [if_neg hho, hce]
          have hoh : ¬ old.nHeight = h := fun a => hho a.symm
          simp [hoh, hdh]
  · rw [if_neg hn, if_neg hn]
    exact hce

theorem undo_set_restores (v w : CCoinsView) (n : valtype) (d : CNameData)
    (hc : v.expireConsistent)
    (hmap : ∀ nm, w.nameMap nm = (v.setName n d).nameMap nm)
    (hexp : ∀ h nm, w.expireSet h nm = (v.setName n d).expireSet h nm) :
    (∀ nm, ((CNameTxUndo.fromOldState n v).apply w).nameMap nm
      = v.nameMap nm) ∧
      (∀ h nm, ((CNameTxUndo.fromOldState n v).apply w).expireSet h nm
        = v.expireSet h nm) := by
  have hwn : w.nameMap n = some d := by
    rw [hmap n]
    simp [CCoinsView.setName]
  cases hv : v.nameMap n with
  | none =>
    have happ : (CNameTxUndo.fromOldState n v).apply w = w.deleteName n := by
      simp [CNameTxUndo.apply, CNameTxUndo.fromOldState, CCoinsView.getName,
        hv]
    rw [happ]
    constructor
    · intro nm
      simp only [CCoinsView.deleteName]
      by_cases hnm : nm = n
      · rw [if_pos hnm, hnm, hv]
      · rw [if_neg hnm, hmap nm]
        simp only [CCoinsView.setName]
        rw [if_neg hnm]
    · intro h nm
      simp only [CCoinsView.deleteName, hwn]
      have hce := hc h nm
      by_cases hnm : nm = n
      · rw [if_pos hnm]
        rw [hnm] at hce ⊢
        rw [hv] at hce
        dsimp only at hce
        by_cases hh : h = d.nHeight
        · rw [if_pos hh, hce]
        · rw [if_neg hh, hexp h n]
          simp [CCoinsView.setName, hh, hv]
      · rw [if_neg hnm, hexp h nm]
        simp [CCoinsView.setName, hnm]
  | some old =>
    have happ : (CNameTxUndo.fromOldState n v).apply w = w.setName n old := by
      simp [CNameTxUndo.apply, CNameTxUndo.fromOldState, CCoinsView.getName,
        hv]
    rw [happ]
    constructor
    · intro nm
      simp only [CCoinsView.setName]
      by_cases hnm : nm = n
      · rw [if_pos hnm, hnm, hv]
      · rw [if_neg hnm, hmap nm]
        simp only [CCoinsView.setName]
        rw [if_neg hnm]
    · intro h nm
      simp only [CCoinsView.setName, hwn]
      have hce := hc h nm
      by_cases hnm : nm = n
      · rw [if_pos hnm]
        rw [hnm] at hce ⊢
        rw [hv] at hce
        dsimp only at hce
        by_cases hho : h = old.nHeight
        · rw [if_pos hho, hce]
          simp [hho]
        · rw [if_neg hho]
          by_cases hhd : h = d.nHeight
          · rw [if_pos hhd, hce]
            have hoh : ¬ old.nHeight = h := fun a => hho a.symm
            simp [hoh]
          · rw [if_neg hhd, hexp h n]
            simp [CCoinsView.setName, hhd, hv, hho]
      · rw [if_neg hnm, hexp h nm]
        simp [CCoinsView.setName, hnm]

theorem applyNameOutputs_roundtrip (txH nH : Nat) :
    ∀ (outs : List CTxOut) (i : Nat) (v : CCoinsView),
      v.expireConsistent →
      (∀ nm, (undoNameList (applyNameOutputs txH nH outs i v).2
          (applyNameOutputs txH nH outs i v).1).nameMap nm
          = v.nameMap nm) ∧
        (∀ h nm, (undoNameList (applyNameOutputs txH nH outs i v).2
            (applyNameOutputs txH nH outs i v).1).expireSet h nm
            = v.expireSet h nm) := by
  intro outs
  induction outs with
  | nil =>
    intro i v hc
    exact ⟨fun nm => rfl, fun h nm => rfl⟩
  | cons txout rest ih =>
    intro i v hc
    cases hop : txout.scriptPubKey.nameOp with
    | none =>
      simp only [applyNameOutputs, hop]
      exact ih (i + 1) v hc
    | some op =>
      by_cases hai : op.isAnyUpdate = true
      · simp only [applyNameOutputs, hop, hai, if_true]
        have ihres := ih (i + 1)
          (v.setName op.getOpName
            (CNameData.fromScript nH ⟨txH, i⟩ txout.scriptPubKey))
          (setName_expireConsistent v _ _ hc)
        rw [undoNameList_cons]
        exact undo_set_restores v _ op.getOpName _ hc ihres.1 ihres.2
      · simp only [applyNameOutputs, hop, hai, Bool.false_eq_true, if_false]
        exact ih (i + 1) v hc

theorem applyNameOutputs_length (txH nH : Nat) :
    ∀ (outs : List CTxOut) (i : Nat) (v : CCoinsView),
      (applyNameOutputs txH nH outs i v).2.length
        = outs.countP (fun o =>
            (o.scriptPubKey.nameOp.map NameOp.isAnyUpdate).getD false) := by
  intro outs
  induction outs with
  | nil => intro i v; rfl
  | cons txout rest ih =>
    intro i v
    rw [List.countP_cons]
    cases hop : txout.scriptPubKey.nameOp with
    | none => simp only [applyNameOutputs, hop]; simp [ih, hop]
    | some op =>
      by_cases hai : op.isAnyUpdate = true
      · simp only [applyNameOutputs, hop, hai, if_true]
        simp [ih, hop, hai]
      · simp only [applyNameOutputs, hop, hai, Bool.false_eq_true, if_false]
        simp only [Bool.not_eq_true] at hai
        simp [ih, hop, hai]

/-- C1: apply-then-undo is a round trip on the name database.  Applying a
transaction at a height other than `MEMPOOL_HEIGHT` records one
`CNameTxUndo` per name-update output capturing the pre-state, and replaying
those records in reverse order restores the name database pointwise — names
absent before are deleted, names with prior data get exactly that data back
— with the expire index (of a consistent view) also restored pointwise by
the `set`/`remove` bookkeeping. -/
theorem apply_name_tx_roundtrip (params : CChainParams) (tx : CTransaction)
    (nHeight : Nat) (view : CCoinsView)
    (hmem : nHeight ≠ MEMPOOL_HEIGHT) (hc : view.expireConsistent) :
    (∀ nm, (undoNameList (ApplyNameTransaction params tx nHeight view).2
        (ApplyNameTransaction params tx nHeight view).1).nameMap nm
        = view.nameMap nm) ∧
      (∀ h nm, (undoNameList (ApplyNameTransaction params tx nHeight view).2
          (ApplyNameTransaction params tx nHeight view).1).expireSet h nm
          = view.expireSet h nm) ∧
      (params.isHistoricBug tx.hash nHeight = false → tx.isNamecoin = true →
        (ApplyNameTransaction params tx nHeight view).2.length
          = tx.vout.countP (fun o =>
              (o.scriptPubKey.nameOp.map NameOp.isAnyUpdate).getD false)) := by
  have hcore : ∀ hco : (ApplyNameTransaction params tx nHeight view)
      = (view, []) ∨ (ApplyNameTransaction params tx nHeight view)
      = applyNameOutputs tx.hash nHeight tx.vout 0 view,
      (∀ nm, (undoNameList (ApplyNameTransaction params tx nHeight view).2
        (ApplyNameTransaction params tx nHeight view).1).nameMap nm
        = view.nameMap nm) ∧
      (∀ h nm, (undoNameList (ApplyNameTransaction params tx nHeight view).2
          (ApplyNameTransaction params tx nHeight view).1).expireSet h nm
          = view.expireSet h nm) := by
    rintro (hco | hco) <;> rw [hco]
    · exact ⟨fun nm => rfl, fun h nm => rfl⟩
    · exact ⟨(applyNameOutputs_roundtrip tx.hash nHeight tx.vout 0 view hc).1,
        (applyNameOutputs_roundtrip tx.hash nHeight tx.vout 0 view hc).2⟩
  have hshape : (ApplyNameTransaction params tx nHeight view) = (view, [])
      ∨ (ApplyNameTransaction params tx nHeight view)
      = applyNameOutputs tx.hash nHeight tx.vout 0 view := by
    rw [ApplyNameTransaction]
    cases hb : params.historicBug tx.hash nHeight with
    | none =>
      cases hnc : tx.isNamecoin with
      | false => exact Or.inl rfl
      | true => exact Or.inr rfl
    | some bt =>
      by_cases hbt : bt = .fullyApply
      · subst hbt
        cases hnc : tx.isNamecoin with
        | false => simp
        | true => simp
      · simp [hbt]
  refine ⟨(hcore hshape).1, (hcore hshape).2, ?_⟩
  intro hnb hnc
  rw [CChainParams.isHistoricBug] at hnb
  have hnone : params.historicBug tx.hash nHeight = none := by
    cases hb2 : params.historicBug tx.hash nHeight with
    | none => rfl
    | some bt => rw [hb2] at hnb; simp at hnb
  rw [ApplyNameTransaction]
  simp only [hnone, hnc, Bool.not_true, Bool.false_eq_true, if_false]
  exact applyNameOutputs_length tx.hash nHeight tx.vout 0 view

/-- A consistent sample view holding the name `[5]` registered at height 80,
used by the C1 witness. -/
def consView : CCoinsView :=
  { getCoins := fun _ => none
    nameMap := fun n => if n = [5] then some ⟨[9], 80, ⟨1, 0⟩, []⟩ else none
    expireSet := fun h n =>
      match (if n = [5] then some (⟨[9], 80, ⟨1, 0⟩, []⟩ : CNameData)
        else none) with
      | some d => decide (d.nHeight = h)
      | none => false
    namesForHeight := fun _ => [] }

/-- A sample transaction for the C1 witness: it updates the existing name
`[5]` and registers the fresh name `[6]`. -/
def rtTx : CTransaction :=
  ⟨3, true, [],
    [⟨150, ⟨some (.opUpdate [5] [7]), []⟩⟩,
      ⟨150, ⟨some (.opFirstupdate [6] [0] [8]), []⟩⟩]⟩

/-- Witness for C1: after applying the sample transaction at height 100 and
replaying its two undo records in reverse, the database entries of both
touched names and the expire-index entries at their heights are back to the
pre-state. -/
theorem apply_name_tx_roundtrip_witness :
    (undoNameList (ApplyNameTransaction sampleParams rtTx 100 consView).2
        (ApplyNameTransaction sampleParams rtTx 100 consView).1).nameMap [5]
        = consView.nameMap [5] ∧
      (undoNameList (ApplyNameTransaction sampleParams rtTx 100 consView).2
          (ApplyNameTransaction sampleParams rtTx 100 consView).1).nameMap
          [6] = consView.nameMap [6] ∧
      (undoNameList (ApplyNameTransaction sampleParams rtTx 100 consView).2
          (ApplyNameTransaction sampleParams rtTx 100 consView).1).expireSet
          80 [5] = consView.expireSet 80 [5] ∧
      (ApplyNameTransaction sampleParams rtTx 100 consView).2.length = 2 :=
  ⟨(apply_name_tx_roundtrip sampleParams rtTx 100 consView (by decide)
      (fun h n => rfl)).1 [5],
    (apply_name_tx_roundtrip sampleParams rtTx 100 consView (by decide)
      (fun h n => rfl)).1 [6],
    (apply_name_tx_roundtrip sampleParams rtTx 100 consView (by decide)
      (fun h n => rfl)).2.1 80 [5],
    ((apply_name_tx_roundtrip sampleParams rtTx 100 consView (by decide)
      (fun h n => rfl)).2.2 rfl rfl).trans rfl⟩

end Namecore
